import Mathlib

/-!
Verification development for the table upcast converters of
`ckeditor5-table` (`src/converters/upcasttable.js`).

The view tree (input, HTML-like) is embedded as `VNode`; the destination
document-model tree as `MNode`.  JavaScript numbers appearing in the
colspan arithmetic are embedded as `JSNum := Option Int`, with `none`
playing the role of NaN (`parseInt` on an unparsable string); `jsAdd` and
`jsGt` mirror JS `+` and `>` on such values (every comparison with NaN is
false).  The two dispatcher handlers are embedded as total functions whose
external collaborators (consumption ledger, `splitToAllowedParent`, the
recursive dispatcher) appear as explicit inputs, and whose observable
effects (inserted subtree, consumption, `data.modelRange`,
`data.modelCursor`) are returned as an outcome record; a `none`/`false`
outcome field means the handler returned without touching it.
-/

/-- A view-tree node: an element with a tag name, string attributes and
children, or a text node (which has no `name` in the view API). -/
inductive VNode where
  | element (name : String) (attrs : List (String × String)) (children : List VNode)
  | text (data : String)

/-- JS `node.name`: `undefined` (here `none`) on a text node. -/
def VNode.nameOf : VNode → Option String
  | .element n _ _ => some n
  | .text _ => none

/-- JS `Array.from( node.getChildren() )`; a text node has no children. -/
def VNode.childrenOf : VNode → List VNode
  | .element _ _ cs => cs
  | .text _ => []

/-- JS `node.getAttribute( key )`: the first binding of `key`, or
`undefined` (here `none`). -/
def VNode.getAttr : VNode → String → Option String
  | .element _ attrs _, key => (attrs.find? (fun p => p.1 == key)).map (fun p => p.2)
  | .text _, _ => none

/-- A JS number restricted to the values arising in the colspan
arithmetic: an integer, or NaN (`none`). -/
abbrev JSNum := Option Int

/-- JS `+` on `JSNum`: NaN is absorbing. -/
def jsAdd : JSNum → JSNum → JSNum
  | some a, some b => some (a + b)
  | _, _ => none

/-- JS `>` on `JSNum`: any comparison involving NaN is false. -/
def jsGt : JSNum → JSNum → Bool
  | some a, some b => b < a
  | _, _ => false

/-- JS truthiness of a number: `0` and NaN are falsy. -/
def jsTruthy : JSNum → Bool
  | none => false
  | some n => n != 0

/-- The integer value of a non-NaN `JSNum` (0 as a dummy for NaN). -/
def jsIntVal : JSNum → Int
  | none => 0
  | some n => n

/-- Whitespace skipped by JS `parseInt`. -/
def isJsSpace (c : Char) : Bool :=
  c = ' ' || c = '\t' || c = '\n' || c = '\r' || c = '\x0b' || c = '\x0c'

/-- Decimal digit value of a character, if any (code 48 is `0`). -/
def decDigit? (c : Char) : Option Nat :=
  if c.isDigit then some (c.toNat - 48) else none

/-- Hexadecimal digit value of a character, if any: a decimal digit, or
a letter from `a`/`A` to `f`/`F` (lower-cased, code 97 is `a`, worth
ten). -/
def hexDigit? (c : Char) : Option Nat :=
  match decDigit? c with
  | some d => some d
  | none =>
    if 'a' ≤ c.toLower && c.toLower ≤ 'f' then some (c.toLower.toNat - 87) else none

/-- Accumulate the value of the longest digit run at the front of `cs`. -/
def digitsAcc (digit? : Char → Option Nat) (radix : Nat) : List Char → Nat → Nat
  | [], acc => acc
  | c :: rest, acc =>
    match digit? c with
    | some d => digitsAcc digit? radix rest (acc * radix + d)
    | none => acc

/-- Value of the longest digit run at the front of `cs`; `none` when `cs`
does not start with a digit (JS `parseInt` yields NaN then). -/
def parseDigits (digit? : Char → Option Nat) (radix : Nat) (cs : List Char) : Option Nat :=
  match cs with
  | [] => none
  | c :: _ =>
    match digit? c with
    | none => none
    | some _ => some (digitsAcc digit? radix cs 0)

/-- Unsigned part of JS `parseInt` with no explicit radix: a `0x`/`0X`
run is read as hexadecimal, anything else as decimal. -/
def jsParseIntUnsigned (cs : List Char) : Option Nat :=
  match cs with
  | '0' :: 'x' :: rest => parseDigits hexDigit? 16 rest
  | '0' :: 'X' :: rest => parseDigits hexDigit? 16 rest
  | _ => parseDigits decDigit? 10 cs

/-- JS `parseInt( s )` (no radix argument): skip leading whitespace, read
an optional sign, then the longest digit run; NaN (`none`) when no digit
follows. -/
def jsParseInt (s : String) : JSNum :=
  match s.data.dropWhile isJsSpace with
  | '-' :: rest => (jsParseIntUnsigned rest).map (fun n => -(n : Int))
  | '+' :: rest => (jsParseIntUnsigned rest).map (fun n => (n : Int))
  | rest => (jsParseIntUnsigned rest).map (fun n => (n : Int))

/-- `parseInt( th.getAttribute( 'colspan' ) || 1 )` from
`scanRowForHeadingColumns`: a missing attribute (`undefined`) and the
empty string are the only falsy attribute values, so only those fall back
to `1`; every other string goes through `parseInt` unchanged. -/
def colspanOf (cell : VNode) : JSNum :=
  match VNode.getAttr cell "colspan" with
  | none => some 1
  | some s => if s = "" then some 1 else jsParseInt s

/-- The `th`/`td` children of a row, as filtered at the start of
`scanRowForHeadingColumns` (text nodes have no name, hence drop out). -/
def cellChildren (tr : VNode) : List VNode :=
  (VNode.childrenOf tr).filter
    (fun c => VNode.nameOf c == some "th" || VNode.nameOf c == some "td")

/-- The `while` loop of `scanRowForHeadingColumns`: walk the filtered
children from the left, adding each `th`'s colspan to the accumulator,
and stop at the first child that is not a `th`. -/
def countTh : List VNode → JSNum → JSNum
  | [], acc => acc
  | c :: rest, acc =>
    if VNode.nameOf c == some "th" then countTh rest (jsAdd acc (colspanOf c)) else acc

/-- `scanRowForHeadingColumns( tr )`: the summed colspans of the leading
run of `th` cells among the row's cell children. -/
def scanRowForHeadingColumns (tr : VNode) : JSNum :=
  countTh (cellChildren tr) (some 0)

/-- The `headingColumns` update in `scanTable`'s row loop:
`if ( headingCols > tableMeta.headingColumns ) { ... = headingCols }`. -/
def updateHeadingColumns (acc : JSNum) (tr : VNode) : JSNum :=
  if jsGt (scanRowForHeadingColumns tr) acc then scanRowForHeadingColumns tr else acc

/-- The mutable state of `scanTable`'s loop over the table's children:
the two counters, the two row accumulators and the `firstTheadElement`
variable.  Node identity of `firstTheadElement` is represented by the
index of that child in the table (two structurally equal `<thead>`s are
distinct objects in the source). -/
structure ScanState where
  headingRows : Nat
  headingColumns : JSNum
  headRows : List VNode
  bodyRows : List VNode
  firstTheadIdx : Option Nat

/-- One iteration of the inner `for ( const tr of ... )` loop of
`scanTable`: `tr.parent` is the section currently iterated, so
`tr.parent.name === 'thead' && tr.parent === firstTheadElement` becomes a
check on the section's name and index. -/
def processRow (firstThead : Option Nat) (sectionIdx : Nat) (sectionName : String)
    (st : ScanState) (tr : VNode) : ScanState :=
  if sectionName == "thead" && firstThead == some sectionIdx then
    { st with headingRows := st.headingRows + 1, headRows := st.headRows ++ [tr] }
  else
    { st with bodyRows := st.bodyRows ++ [tr],
              headingColumns := updateHeadingColumns st.headingColumns tr }

/-- One iteration of the outer loop of `scanTable`: only `tbody`, `thead`
and `tfoot` children are examined; the first `thead` is recorded as
`firstTheadElement`; then every child of the section is classified. -/
def processSection (st : ScanState) (idx : Nat) (child : VNode) : ScanState :=
  match VNode.nameOf child with
  | some name =>
    if name == "tbody" || name == "thead" || name == "tfoot" then
      if name == "thead" && st.firstTheadIdx == none then
        (VNode.childrenOf child).foldl (processRow (some idx) idx name)
          { st with firstTheadIdx := some idx }
      else
        (VNode.childrenOf child).foldl (processRow st.firstTheadIdx idx name) st
    else st
  | none => st

/-- The outer loop of `scanTable`, threading the child index. -/
def scanChildren : List VNode → Nat → ScanState → ScanState
  | [], _, st => st
  | c :: rest, idx, st => scanChildren rest (idx + 1) (processSection st idx c)

/-- The scanner's result record. -/
structure TableMeta where
  headingRows : Nat
  headingColumns : JSNum
  rows : List VNode

/-- `scanTable( viewTable )`: run the loop from the initial state and
return the metadata, with `rows = [ ...headRows, ...bodyRows ]`. -/
def scanTable (viewTable : VNode) : TableMeta :=
  let st := scanChildren (VNode.childrenOf viewTable) 0 ⟨0, some 0, [], [], none⟩
  ⟨st.headingRows, st.headingColumns, st.headRows ++ st.bodyRows⟩

/-! Specification-level description of the scan, written from the spec's
words for the refinement claims: the rows of the first `<thead>` child,
followed by the rows of every other section in document order. -/

/-- Whether a table child is one of the row-bearing sections. -/
def isSectionB (c : VNode) : Bool :=
  match VNode.nameOf c with
  | some n => n == "tbody" || n == "thead" || n == "tfoot"
  | none => false

/-- Whether a table child is a `<thead>` element. -/
def isTheadB (c : VNode) : Bool :=
  VNode.nameOf c == some "thead"

/-- The rows contributed by one table child: its children when it is a
section, nothing otherwise. -/
def sectionRows (c : VNode) : List VNode :=
  if isSectionB c then VNode.childrenOf c else []

/-- All rows of all sections of a child list, in document order. -/
def allSectionRows : List VNode → List VNode
  | [] => []
  | c :: rest => sectionRows c ++ allSectionRows rest

/-- The rows of the first `<thead>` child, per the spec. -/
def specHeadRows : List VNode → List VNode
  | [] => []
  | c :: rest => if isTheadB c then VNode.childrenOf c else specHeadRows rest

/-- All rows not belonging to the first `<thead>` child, in document
order, per the spec. -/
def specBodyRows : List VNode → List VNode
  | [] => []
  | c :: rest =>
    if isTheadB c then allSectionRows rest else sectionRows c ++ specBodyRows rest

/-- The index of the first `<thead>` child at or after position `idx`. -/
def findTheadIdx : List VNode → Nat → Option Nat
  | [], _ => none
  | c :: rest, idx => if isTheadB c then some idx else findTheadIdx rest (idx + 1)

/-- Spec-level sum of a list of JS numbers. -/
def jsSum : List JSNum → JSNum
  | [] => some 0
  | x :: xs => jsAdd x (jsSum xs)

/-! The destination (model) tree and the two dispatcher handlers. -/

/-- A destination-model node: name, integer attributes, children. -/
inductive MNode where
  | node (name : String) (attrs : List (String × Int)) (children : List MNode)

/-- The children of a model node. -/
def MNode.childrenOf : MNode → List MNode
  | .node _ _ cs => cs

/-- Attribute lookup on a model node. -/
def MNode.getAttrI : MNode → String → Option Int
  | .node _ attrs _, key => (attrs.find? (fun p => p.1 == key)).map (fun p => p.2)

/-- A model position, kept symbolic: positions handed in from outside
(`external`, `inParent` referring to an external node by id) and the
positions the handlers construct around the node they insert. -/
inductive MPos where
  | external (k : Nat)
  | before (n : MNode)
  | after (n : MNode)
  | inParent (k : Nat)

/-- The result of `conversionApi.splitToAllowedParent`: an insertion
position, plus `cursorParent` (an external node id) when an ancestor had
to be split. -/
structure SplitRes where
  position : MPos
  cursorParent : Option Nat

/-- Observable outcome of one `element:table` handler call.  `none` /
`false` fields mean the handler returned without performing that effect
(nothing inserted, nothing consumed, `data` untouched). -/
structure TableOutcome where
  insertedTable : Option MNode
  consumed : Bool
  modelRange : Option (MPos × MPos)
  modelCursor : Option MPos

/-- Observable outcome of one `element:th/td` handler call. -/
structure CellOutcome where
  insertedCell : Option MNode
  consumed : Bool
  modelRange : Option (MPos × MPos)
  modelCursor : Option MPos

/-- Modelled from the spec: `createEmptyTableCell` (imported from
`../commands/utils`, not present under `src/`) creates a single
`tableCell`; since the model forbids a contentless cell it holds one
empty paragraph. -/
def createEmptyTableCellNode : MNode :=
  MNode.node "tableCell" [] [MNode.node "paragraph" [] []]

/-- The attribute set built by `upcastTable`: each attribute is set only
when its computed value is truthy (`if ( headingColumns ) ...`,
`if ( headingRows ) ...`). -/
def tableAttributes (meta : TableMeta) : List (String × Int) :=
  (if jsTruthy meta.headingColumns then [("headingColumns", jsIntVal meta.headingColumns)]
   else [])
  ++ (if meta.headingRows != 0 then [("headingRows", (meta.headingRows : Int))] else [])

/-- The `element:table` handler installed by `upcastTable`, as a total
function.  `testName` is the answer of `consumable.test( viewTable,
{ name: true } )`; `split` is the answer of `splitToAllowedParent` for
this call; `convertRow` abstracts `conversionApi.convertItem`, giving the
model nodes each row conversion appends at the end of the table.  The
function is total: no exception can propagate from a call. -/
def upcastTableStep (viewTable : VNode) (testName : Bool) (split : Option SplitRes)
    (convertRow : VNode → List MNode) : TableOutcome :=
  if testName = false then ⟨none, false, none, none⟩ else
  let meta := scanTable viewTable
  let attrs := tableAttributes meta
  match split with
  | none => ⟨none, false, none, none⟩
  | some sr =>
    let children :=
      if meta.rows.length != 0 then (meta.rows.map convertRow).flatten
      else [MNode.node "tableRow" [] [createEmptyTableCellNode]]
    let table := MNode.node "table" attrs children
    let rangeEnd := MPos.after table
    let cursor :=
      match sr.cursorParent with
      | some p => MPos.inParent p
      | none => rangeEnd
    ⟨some table, true, some (MPos.before table, rangeEnd), some cursor⟩

/-- The `element:th`/`element:td` handler installed by `upcastTableCell`,
as a total function.  `convertedChildren` abstracts
`conversionApi.convertChildren`, giving the model nodes placed inside the
new cell; when that leaves the cell childless, one paragraph is inserted.
The split result's `cursorParent` is never inspected. -/
def upcastTableCellStep (viewCell : VNode) (testName : Bool) (split : Option SplitRes)
    (convertedChildren : VNode → List MNode) : CellOutcome :=
  if testName = false then ⟨none, false, none, none⟩ else
  match split with
  | none => ⟨none, false, none, none⟩
  | some _ =>
    let converted := convertedChildren viewCell
    let children :=
      if converted.length = 0 then [MNode.node "paragraph" [] []] else converted
    let cell := MNode.node "tableCell" [] children
    let rangeEnd := MPos.after cell
    ⟨some cell, true, some (MPos.before cell, rangeEnd), some rangeEnd⟩

/-- The table node as fully built by a successful `upcastTable` call:
created with the scanned attributes, then populated either by the row
conversions or by the synthesized empty row and cell. -/
def builtTableNode (t : VNode) (convertRow : VNode → List MNode) : MNode :=
  MNode.node "table" (tableAttributes (scanTable t))
    (if (scanTable t).rows.length != 0 then ((scanTable t).rows.map convertRow).flatten
     else [MNode.node "tableRow" [] [createEmptyTableCellNode]])

/-- The cell node as fully built by a successful `upcastTableCell` call:
populated by the child conversions, or by the placeholder paragraph when
that left it childless. -/
def builtCellNode (c : VNode) (convertedChildren : VNode → List MNode) : MNode :=
  MNode.node "tableCell" []
    (if (convertedChildren c).length = 0 then [MNode.node "paragraph" [] []]
     else convertedChildren c)

/-! Concrete view nodes used as witness inputs. -/

/-- Scenario B row: `<tr><th colspan="2"></th><th></th><td></td></tr>`. -/
def exRowB : VNode :=
  VNode.element "tr" []
    [VNode.element "th" [("colspan", "2")] [], VNode.element "th" [] [],
     VNode.element "td" [] []]

/-- A table holding the Scenario B row in a `<tbody>`. -/
def exTableB : VNode :=
  VNode.element "table" [] [VNode.element "tbody" [] [exRowB]]

/-- A body section with one row of one `td`. -/
def exTbody : VNode :=
  VNode.element "tbody" [] [VNode.element "tr" [] [VNode.element "td" [] []]]

/-- A header section with one row of one `td`. -/
def exThead1 : VNode :=
  VNode.element "thead" [] [VNode.element "tr" [] [VNode.element "td" [] []]]

/-- A second header section with one row of one `th`. -/
def exThead2 : VNode :=
  VNode.element "thead" [] [VNode.element "tr" [] [VNode.element "th" [] []]]

/-- A table with a `<tbody>` followed by two `<thead>` sections. -/
def exTableTwoThead : VNode :=
  VNode.element "table" [] [exTbody, exThead1, exThead2]

/-- An empty `<table></table>`. -/
def exTableEmpty : VNode :=
  VNode.element "table" [] []

/-- A table whose only section is a one-row `<thead>`. -/
def exTableHeadOnly : VNode :=
  VNode.element "table" [] [VNode.element "thead" [] [VNode.element "tr" [] []]]

/-- A row whose single `th` carries `colspan="0"`. -/
def exRowColZero : VNode :=
  VNode.element "tr" [] [VNode.element "th" [("colspan", "0")] []]

/-- A row whose single `th` carries the unparsable `colspan="w"`. -/
def exRowColBad : VNode :=
  VNode.element "tr" [] [VNode.element "th" [("colspan", "w")] []]

/-- An empty `<td></td>`. -/
def exTd : VNode :=
  VNode.element "td" [] []

/-- A split result with no split continuation. -/
def exSplit : SplitRes :=
  ⟨MPos.external 0, none⟩

/-- A split result whose `cursorParent` is external node 7. -/
def exSplitPar : SplitRes :=
  ⟨MPos.external 0, some 7⟩

/-- A row/child converter oracle producing nothing. -/
def exNoConvert : VNode → List MNode :=
  fun _ => []

/-! Basic lemmas about the JS-number operations. -/

theorem jsAdd_zero_right (a : JSNum) : jsAdd a (some 0) = a := by
  cases a <;> simp [jsAdd]

theorem jsAdd_assoc (a b c : JSNum) : jsAdd (jsAdd a b) c = jsAdd a (jsAdd b c) := by
  cases a <;> cases b <;> cases c <;> simp [jsAdd, Int.add_assoc]

theorem jsGt_nan_left (b : JSNum) : jsGt none b = false := by
  cases b <;> rfl

/-! Characterization of the row scan as a sum over the leading `th` run. -/

theorem countTh_eq_sum (l : List VNode) :
    ∀ acc : JSNum,
    countTh l acc =
      jsAdd acc (jsSum ((l.takeWhile (fun c => VNode.nameOf c == some "th")).map colspanOf)) := by
  induction l with
  | nil => intro acc; simp [countTh, jsSum, jsAdd_zero_right]
  | cons c rest ih =>
    intro acc
    by_cases h : (VNode.nameOf c == some "th") = true
    · simp only [countTh, h, if_true, List.takeWhile_cons, List.map_cons, jsSum]
      rw [ih, jsAdd_assoc]
    · have h' : (VNode.nameOf c == some "th") = false := by
        cases hb : (VNode.nameOf c == some "th") with
        | false => rfl
        | true => exact absurd hb h
      simp [countTh, h', List.takeWhile_cons, jsSum, jsAdd_zero_right]

theorem scanRow_eq_sum (tr : VNode) :
    scanRowForHeadingColumns tr =
      jsSum (((cellChildren tr).takeWhile (fun c => VNode.nameOf c == some "th")).map colspanOf) := by
  rw [scanRowForHeadingColumns, countTh_eq_sum]
  cases h : jsSum (((cellChildren tr).takeWhile (fun c => VNode.nameOf c == some "th")).map colspanOf) <;>
    simp [jsAdd]

/-! Characterization of the inner row loop of `scanTable`. -/

theorem foldRows_body (name : String) (ft : Option Nat) (idx : Nat)
    (hcond : (name == "thead" && ft == some idx) = false) (rows : List VNode) :
    ∀ st : ScanState,
    rows.foldl (processRow ft idx name) st =
      ⟨st.headingRows, rows.foldl updateHeadingColumns st.headingColumns,
       st.headRows, st.bodyRows ++ rows, st.firstTheadIdx⟩ := by
  induction rows with
  | nil => intro st; simp
  | cons tr rest ih =>
    intro st
    have hstep : processRow ft idx name st tr =
        ⟨st.headingRows, updateHeadingColumns st.headingColumns tr,
         st.headRows, st.bodyRows ++ [tr], st.firstTheadIdx⟩ := by
      simp [processRow, hcond]
    simp only [List.foldl_cons, hstep, ih]
    simp

theorem foldRows_head (name : String) (ft : Option Nat) (idx : Nat)
    (hcond : (name == "thead" && ft == some idx) = true) (rows : List VNode) :
    ∀ st : ScanState,
    rows.foldl (processRow ft idx name) st =
      ⟨st.headingRows + rows.length, st.headingColumns,
       st.headRows ++ rows, st.bodyRows, st.firstTheadIdx⟩ := by
  induction rows with
  | nil => intro st; simp
  | cons tr rest ih =>
    intro st
    have hstep : processRow ft idx name st tr =
        ⟨st.headingRows + 1, st.headingColumns,
         st.headRows ++ [tr], st.bodyRows, st.firstTheadIdx⟩ := by
      simp [processRow, hcond]
    simp only [List.foldl_cons, hstep, ih]
    simp
    omega

/-! Characterization of one outer-loop iteration of `scanTable`. -/

theorem isTheadB_isSectionB (c : VNode) (h : isTheadB c = true) : isSectionB c = true := by
  unfold isTheadB at h
  cases hn : VNode.nameOf c with
  | none => rw [hn] at h; exact absurd h (by simp)
  | some name =>
    rw [hn] at h
    have hname : name = "thead" := Option.some.inj (eq_of_beq h)
    simp [isSectionB, hn, hname]

theorem processSection_not_section (st : ScanState) (idx : Nat) (c : VNode)
    (h : isSectionB c = false) : processSection st idx c = st := by
  cases c with
  | text s => rfl
  | element name attrs children =>
    have hb : (name == "tbody" || name == "thead" || name == "tfoot") = false := by
      simpa [isSectionB, VNode.nameOf] using h
    simp only [processSection, VNode.nameOf]
    rw [if_neg (by rw [hb]; exact Bool.false_ne_true)]

theorem processSection_body (st : ScanState) (idx : Nat) (c : VNode) (name : String)
    (hn : VNode.nameOf c = some name)
    (hs : (name == "tbody" || name == "thead" || name == "tfoot") = true)
    (hset : (name == "thead" && (st.firstTheadIdx == (none : Option Nat))) = false)
    (hcond : (name == "thead" && (st.firstTheadIdx == some idx)) = false) :
    processSection st idx c =
      ⟨st.headingRows,
       (VNode.childrenOf c).foldl updateHeadingColumns st.headingColumns,
       st.headRows, st.bodyRows ++ VNode.childrenOf c, st.firstTheadIdx⟩ := by
  cases c with
  | text s => exact absurd hn (by simp [VNode.nameOf])
  | element nm attrs children =>
    have hnm : nm = name := by
      simpa [VNode.nameOf] using hn
    subst hnm
    simp only [processSection, VNode.nameOf, VNode.childrenOf]
    rw [if_pos hs]
    rw [if_neg (by rw [hset]; exact Bool.false_ne_true)]
    rw [foldRows_body nm st.firstTheadIdx idx hcond]

theorem processSection_first_thead (st : ScanState) (idx : Nat) (c : VNode)
    (hn : VNode.nameOf c = some "thead") (hft : st.firstTheadIdx = none) :
    processSection st idx c =
      ⟨st.headingRows + (VNode.childrenOf c).length, st.headingColumns,
       st.headRows ++ VNode.childrenOf c, st.bodyRows, some idx⟩ := by
  cases c with
  | text s => exact absurd hn (by simp [VNode.nameOf])
  | element nm attrs children =>
    have hnm : nm = "thead" := by
      simpa [VNode.nameOf] using hn
    subst hnm
    simp only [processSection, VNode.nameOf, VNode.childrenOf]
    rw [if_pos (show (("thead" : String) == "tbody" || "thead" == "thead"
      || "thead" == "tfoot") = true by decide)]
    rw [if_pos (show (("thead" : String) == "thead"
      && (st.firstTheadIdx == (none : Option Nat))) = true by rw [hft]; decide)]
    rw [foldRows_head "thead" (some idx) idx (by simp)]

/-! Characterization of the whole outer loop, first after the canonical
`<thead>` has been found, then from the initial state. -/

theorem scanChildren_after (l : List VNode) :
    ∀ (idx j : Nat), j < idx →
    ∀ st : ScanState, st.firstTheadIdx = some j →
    scanChildren l idx st =
      ⟨st.headingRows,
       (allSectionRows l).foldl updateHeadingColumns st.headingColumns,
       st.headRows, st.bodyRows ++ allSectionRows l, some j⟩ := by
  induction l with
  | nil =>
    intro idx j hj st hft
    simp [scanChildren, allSectionRows, ← hft]
  | cons c rest ih =>
    intro idx j hj st hft
    simp only [scanChildren]
    by_cases hsec : isSectionB c = true
    · obtain ⟨name, hn⟩ : ∃ name, VNode.nameOf c = some name := by
        unfold isSectionB at hsec
        cases hname : VNode.nameOf c with
        | none => rw [hname] at hsec; exact absurd hsec (by simp)
        | some nm => exact ⟨nm, rfl⟩
      have hs : (name == "tbody" || name == "thead" || name == "tfoot") = true := by
        unfold isSectionB at hsec
        rw [hn] at hsec
        exact hsec
      have hset : (name == "thead" && (st.firstTheadIdx == (none : Option Nat))) = false := by
        rw [hft]
        simp
      have hcond : (name == "thead" && (st.firstTheadIdx == some idx)) = false := by
        rw [hft]
        have hne : ((some j : Option Nat) == some idx) = false := by
          have : j ≠ idx := Nat.ne_of_lt hj
          simp [this]
        simp [hne]
      rw [processSection_body st idx c name hn hs hset hcond]
      rw [ih (idx + 1) j (Nat.lt_succ_of_lt hj)
        ⟨st.headingRows, (VNode.childrenOf c).foldl updateHeadingColumns st.headingColumns,
         st.headRows, st.bodyRows ++ VNode.childrenOf c, st.firstTheadIdx⟩ hft]
      have hrows : sectionRows c = VNode.childrenOf c := by
        simp [sectionRows, hsec]
      simp [allSectionRows, hrows, List.foldl_append, List.append_assoc]
    · have hsec' : isSectionB c = false := Bool.eq_false_iff.mpr hsec
      rw [processSection_not_section st idx c hsec']
      rw [ih (idx + 1) j (Nat.lt_succ_of_lt hj) st hft]
      have hrows : sectionRows c = [] := by
        simp [sectionRows, hsec']
      simp [allSectionRows, hrows]

theorem scanChildren_none (l : List VNode) :
    ∀ (idx : Nat) (st : ScanState), st.firstTheadIdx = none →
    scanChildren l idx st =
      ⟨st.headingRows + (specHeadRows l).length,
       (specBodyRows l).foldl updateHeadingColumns st.headingColumns,
       st.headRows ++ specHeadRows l,
       st.bodyRows ++ specBodyRows l,
       findTheadIdx l idx⟩ := by
  induction l with
  | nil =>
    intro idx st hft
    simp [scanChildren, specHeadRows, specBodyRows, findTheadIdx, ← hft]
  | cons c rest ih =>
    intro idx st hft
    simp only [scanChildren]
    by_cases hth : isTheadB c = true
    · have hn : VNode.nameOf c = some "thead" := eq_of_beq hth
      rw [processSection_first_thead st idx c hn hft]
      rw [scanChildren_after rest (idx + 1) idx (Nat.lt_succ_self idx)
        ⟨st.headingRows + (VNode.childrenOf c).length, st.headingColumns,
         st.headRows ++ VNode.childrenOf c, st.bodyRows, some idx⟩ rfl]
      simp only [specHeadRows, specBodyRows, findTheadIdx, hth, if_true]
    · have hth' : isTheadB c = false := Bool.eq_false_iff.mpr hth
      by_cases hsec : isSectionB c = true
      · obtain ⟨name, hn⟩ : ∃ name, VNode.nameOf c = some name := by
          unfold isSectionB at hsec
          cases hname : VNode.nameOf c with
          | none => rw [hname] at hsec; exact absurd hsec (by simp)
          | some nm => exact ⟨nm, rfl⟩
        have hnotthead : (name == "thead") = false := by
          unfold isTheadB at hth'
          rw [hn] at hth'
          cases hb : (name == "thead") with
          | false => rfl
          | true =>
            have hname : name = "thead" := eq_of_beq hb
            rw [hname] at hth'
            exact absurd hth' (by simp)
        have hs : (name == "tbody" || name == "thead" || name == "tfoot") = true := by
          unfold isSectionB at hsec
          rw [hn] at hsec
          exact hsec
        rw [processSection_body st idx c name hn hs (by simp [hnotthead]) (by simp [hnotthead])]
        rw [ih (idx + 1)
          ⟨st.headingRows, (VNode.childrenOf c).foldl updateHeadingColumns st.headingColumns,
           st.headRows, st.bodyRows ++ VNode.childrenOf c, st.firstTheadIdx⟩ hft]
        have hrows : sectionRows c = VNode.childrenOf c := by
          simp [sectionRows, hsec]
        simp only [specHeadRows, specBodyRows, findTheadIdx, hth', Bool.false_eq_true,
          if_false, hrows]
        simp [List.foldl_append, List.append_assoc]
      · have hsec' : isSectionB c = false := Bool.eq_false_iff.mpr hsec
        rw [processSection_not_section st idx c hsec']
        rw [ih (idx + 1) st hft]
        have hrows : sectionRows c = [] := by
          simp [sectionRows, hsec']
        simp [specHeadRows, specBodyRows, findTheadIdx, hth', hrows]

/-- The scanner's result, fully characterized by the spec-level lists. -/
theorem scanTable_eq (t : VNode) :
    scanTable t =
      ⟨(specHeadRows (VNode.childrenOf t)).length,
       (specBodyRows (VNode.childrenOf t)).foldl updateHeadingColumns (some 0),
       specHeadRows (VNode.childrenOf t) ++ specBodyRows (VNode.childrenOf t)⟩ := by
  unfold scanTable
  rw [scanChildren_none (VNode.childrenOf t) 0 ⟨0, some 0, [], [], none⟩ rfl]
  simp

/-! Behaviour of the `headingColumns` max-update fold. -/

theorem updateHeadingColumns_some (a : Int) (tr : VNode) (m : Int)
    (h : scanRowForHeadingColumns tr = some m) :
    updateHeadingColumns (some a) tr = some (max a m) := by
  unfold updateHeadingColumns
  rw [h]
  by_cases hc : a < m
  · rw [if_pos (by simp [jsGt, hc]), max_eq_right (le_of_lt hc)]
  · rw [if_neg (by simp [jsGt, hc]), max_eq_left (le_of_not_lt hc)]

theorem updateHeadingColumns_nan (acc : JSNum) (tr : VNode)
    (h : scanRowForHeadingColumns tr = none) :
    updateHeadingColumns acc tr = acc := by
  unfold updateHeadingColumns
  rw [h, jsGt_nan_left]
  simp

theorem foldUpd_some (rows : List VNode) :
    ∀ a : Int, ∃ n : Int,
      rows.foldl updateHeadingColumns (some a) = some n ∧ a ≤ n := by
  induction rows with
  | nil => intro a; exact ⟨a, rfl, le_refl a⟩
  | cons r rs ih =>
    intro a
    cases h : scanRowForHeadingColumns r with
    | none =>
      simp only [List.foldl_cons, updateHeadingColumns_nan _ r h]
      exact ih a
    | some m =>
      simp only [List.foldl_cons, updateHeadingColumns_some a r m h]
      obtain ⟨n, hn, hle⟩ := ih (max a m)
      exact ⟨n, hn, le_trans (le_max_left a m) hle⟩

theorem foldUpd_map_some (rows : List VNode) :
    ∀ (ns : List Int) (a : Int),
    rows.map scanRowForHeadingColumns = ns.map some →
    rows.foldl updateHeadingColumns (some a) = some (ns.foldl max a) := by
  induction rows with
  | nil =>
    intro ns a h
    have hnil : ns = [] := by
      cases ns with
      | nil => rfl
      | cons m ms => exact absurd h.symm (by simp)
    subst hnil
    rfl
  | cons r rs ih =>
    intro ns a h
    cases ns with
    | nil => exact absurd h (by simp)
    | cons m ms =>
      simp only [List.map_cons] at h
      have h1 : scanRowForHeadingColumns r = some m := (List.cons.inj h).1
      have h2 : rs.map scanRowForHeadingColumns = ms.map some := (List.cons.inj h).2
      simp only [List.foldl_cons, updateHeadingColumns_some a r m h1]
      exact ih ms (max a m) h2

theorem le_foldl_max_init (ns : List Int) : ∀ a : Int, a ≤ ns.foldl max a := by
  induction ns with
  | nil => intro a; exact le_refl a
  | cons m ms ih =>
    intro a
    exact le_trans (le_max_left a m) (ih (max a m))

theorem elem_le_foldl_max (ns : List Int) : ∀ (a n : Int), n ∈ ns → n ≤ ns.foldl max a := by
  induction ns with
  | nil => intro a n h; exact absurd h (List.not_mem_nil n)
  | cons m ms ih =>
    intro a n h
    rcases List.mem_cons.mp h with h1 | h2
    · subst h1
      exact le_trans (le_max_right a n) (le_foldl_max_init ms (max a n))
    · exact ih (max a m) n h2

theorem foldl_max_mem (ns : List Int) : ∀ a : Int, ns.foldl max a = a ∨ ns.foldl max a ∈ ns := by
  induction ns with
  | nil => intro a; exact Or.inl rfl
  | cons m ms ih =>
    intro a
    show ms.foldl max (max a m) = a ∨ ms.foldl max (max a m) ∈ m :: ms
    rcases ih (max a m) with h | h
    · rw [h]
      rcases le_or_lt m a with hma | hma
      · exact Or.inl (max_eq_left hma)
      · exact Or.inr (by rw [max_eq_right (le_of_lt hma)]; exact List.mem_cons_self m ms)
    · exact Or.inr (List.mem_cons_of_mem m h)

/-! Projection corollaries of `scanTable_eq`. -/

theorem scanTable_rows_eq (t : VNode) :
    (scanTable t).rows = specHeadRows (VNode.childrenOf t) ++ specBodyRows (VNode.childrenOf t) := by
  rw [scanTable_eq]

theorem scanTable_headingRows_eq (t : VNode) :
    (scanTable t).headingRows = (specHeadRows (VNode.childrenOf t)).length := by
  rw [scanTable_eq]

theorem scanTable_headingColumns_eq (t : VNode) :
    (scanTable t).headingColumns =
      (specBodyRows (VNode.childrenOf t)).foldl updateHeadingColumns (some 0) := by
  rw [scanTable_eq]

theorem scanTable_headingColumns_some (t : VNode) :
    ∃ n : Int, (scanTable t).headingColumns = some n ∧ 0 ≤ n := by
  rw [scanTable_headingColumns_eq]
  exact foldUpd_some (specBodyRows (VNode.childrenOf t)) 0

/-! Computation lemmas for the two handlers on the success path. -/

theorem upcastTableStep_success (t : VNode) (sr : SplitRes) (cv : VNode → List MNode) :
    upcastTableStep t true (some sr) cv =
      ⟨some (builtTableNode t cv), true,
       some (MPos.before (builtTableNode t cv), MPos.after (builtTableNode t cv)),
       some (match sr.cursorParent with
             | some p => MPos.inParent p
             | none => MPos.after (builtTableNode t cv))⟩ := rfl

theorem upcastTableCellStep_success (c : VNode) (sr : SplitRes) (cc : VNode → List MNode) :
    upcastTableCellStep c true (some sr) cc =
      ⟨some (builtCellNode c cc), true,
       some (MPos.before (builtCellNode c cc), MPos.after (builtCellNode c cc)),
       some (MPos.after (builtCellNode c cc))⟩ := rfl

theorem builtTableNode_getAttr_rows (t : VNode) (cv : VNode → List MNode) :
    MNode.getAttrI (builtTableNode t cv) "headingRows" =
      (if (scanTable t).headingRows ≠ 0 then some ((scanTable t).headingRows : Int)
       else none) := by
  unfold builtTableNode tableAttributes MNode.getAttrI
  by_cases hr : (scanTable t).headingRows = 0
  · rw [hr]
    by_cases hc : jsTruthy (scanTable t).headingColumns = true
    · rw [if_pos hc]
      simp
    · rw [if_neg hc]
      simp
  · have hr' : ((scanTable t).headingRows != 0) = true := by
      simp [hr]
    rw [if_pos hr']
    by_cases hc : jsTruthy (scanTable t).headingColumns = true
    · rw [if_pos hc]
      simp [hr]
    · rw [if_neg hc]
      simp [hr]

theorem builtTableNode_getAttr_cols (t : VNode) (cv : VNode → List MNode) (n : Int)
    (hm : (scanTable t).headingColumns = some n) :
    MNode.getAttrI (builtTableNode t cv) "headingColumns" =
      (if n ≠ 0 then some n else none) := by
  unfold builtTableNode tableAttributes MNode.getAttrI
  rw [hm]
  by_cases hz : n = 0
  · rw [hz]
    simp [jsTruthy]
  · have ht : jsTruthy (some n) = true := by
      simp [jsTruthy, hz]
    rw [if_pos ht]
    simp [jsIntVal, hz]

/-! Claim theorems. -/

/-- C1: for every view table, the row sequence produced by `scanTable`
equals the rows of the first `<thead>` child in their original relative
order, followed by all other rows of the `thead`/`tbody`/`tfoot` sections
in original document order, however sections are interleaved or
duplicated. -/
theorem scan_row_order (t : VNode) :
    (scanTable t).rows =
      specHeadRows (VNode.childrenOf t) ++ specBodyRows (VNode.childrenOf t) :=
  scanTable_rows_eq t

/-- C2: every row's heading-column contribution is the sum of the colspan
values over the maximal leading run of `th` cells among its filtered cell
children (stopping at the first non-`th`, and 0 for a row whose first
cell is not a `th`), and when every body-row contribution is a
non-negative number `scanTable`'s `headingColumns` is the maximum of
those contributions (0 when there is no body row). -/
theorem heading_columns_scan (t : VNode) (ns : List Int)
    (hmap : (specBodyRows (VNode.childrenOf t)).map scanRowForHeadingColumns = ns.map some)
    (hnn : ∀ n ∈ ns, 0 ≤ n) :
    (scanTable t).headingColumns = some (ns.foldl max 0) ∧
    (∀ n ∈ ns, n ≤ ns.foldl max 0) ∧
    (ns ≠ [] → ns.foldl max 0 ∈ ns) ∧
    (∀ tr, scanRowForHeadingColumns tr =
      jsSum (((cellChildren tr).takeWhile
        (fun c => VNode.nameOf c == some "th")).map colspanOf)) ∧
    (∀ tr c rest, cellChildren tr = c :: rest → (VNode.nameOf c == some "th") = false →
      scanRowForHeadingColumns tr = some 0) := by
  refine ⟨?_, ?_, ?_, ?_, ?_⟩
  · rw [scanTable_headingColumns_eq]
    exact foldUpd_map_some (specBodyRows (VNode.childrenOf t)) ns 0 hmap
  · intro n hn
    exact elem_le_foldl_max ns 0 n hn
  · intro hne
    rcases foldl_max_mem ns 0 with h | h
    · rw [h]
      cases ns with
      | nil => exact absurd rfl hne
      | cons m ms =>
        have hm : m ≤ 0 := by
          have hh := elem_le_foldl_max (m :: ms) 0 m (List.mem_cons_self m ms)
          rwa [h] at hh
        have hm' : 0 ≤ m := hnn m (List.mem_cons_self m ms)
        have hm0 : m = 0 := le_antisymm hm hm'
        rw [← hm0]
        exact List.mem_cons_self m ms
    · exact h
  · intro tr
    exact scanRow_eq_sum tr
  · intro tr c rest hc hname
    unfold scanRowForHeadingColumns
    rw [hc]
    simp only [countTh]
    rw [if_neg (by rw [hname]; exact Bool.false_ne_true)]

/-- Witness for C2 at Scenario B: the body row
`<tr><th colspan="2"></th><th></th><td></td></tr>` contributes 2 + 1 = 3
and the table's `headingColumns` is 3. -/
theorem heading_columns_scan_witness :
    (scanTable exTableB).headingColumns = some 3 := by
  have h := (heading_columns_scan exTableB [3] rfl (by decide)).1
  rw [h]
  decide

/-- C3 counterexample: the claim says a colspan value that is not a
positive integer is used as 1, but `colspan="0"` is a truthy string, so
`parseInt` yields 0 and the row contributes 0, not 1; an unparsable
`colspan="w"` makes the contribution NaN, a non-number. -/
theorem colspan_zero_counterexample :
    scanRowForHeadingColumns exRowColZero = some 0 ∧
    ¬ scanRowForHeadingColumns exRowColZero = some 1 ∧
    scanRowForHeadingColumns exRowColBad = none := by
  refine ⟨rfl, ?_, rfl⟩
  intro h
  exact absurd h (by decide)

/-- C3 (amended): the colspan falls back to 1 only when the attribute is
missing or the empty string; any other value is parsed by JS `parseInt`
and used as parsed (zero and negative included); an unparsable value
makes the row contribution NaN, and a NaN contribution never changes the
running `headingColumns`, which therefore is always a number — scanning
never fails on malformed input. -/
theorem colspan_malformed_handling (cell tr t : VNode) (s : String) :
    (VNode.getAttr cell "colspan" = none → colspanOf cell = some 1) ∧
    (VNode.getAttr cell "colspan" = some "" → colspanOf cell = some 1) ∧
    (VNode.getAttr cell "colspan" = some s → s ≠ "" → colspanOf cell = jsParseInt s) ∧
    (scanRowForHeadingColumns tr = none →
      ∀ acc : JSNum, updateHeadingColumns acc tr = acc) ∧
    (scanTable t).headingColumns ≠ none := by
  refine ⟨?_, ?_, ?_, ?_, ?_⟩
  · intro h
    unfold colspanOf
    rw [h]
  · intro h
    unfold colspanOf
    rw [h]
    rfl
  · intro h hs
    unfold colspanOf
    rw [h]
    show (if s = "" then (some 1 : JSNum) else jsParseInt s) = jsParseInt s
    rw [if_neg hs]
  · intro h acc
    exact updateHeadingColumns_nan acc tr h
  · obtain ⟨n, hn, _⟩ := scanTable_headingColumns_some t
    rw [hn]
    exact Option.some_ne_none n

/-- Witness for the amended C3: a `th` with no colspan gives 1, one with
an empty colspan gives 1, one with `colspan="2"` gives `parseInt "2"`,
a NaN row contribution leaves the accumulator 5 unchanged, and the
scanned `headingColumns` of a concrete table is a number. -/
theorem colspan_malformed_handling_witness :
    colspanOf (VNode.element "th" [] []) = some 1 ∧
    colspanOf (VNode.element "th" [("colspan", "")] []) = some 1 ∧
    colspanOf (VNode.element "th" [("colspan", "2")] []) = jsParseInt "2" ∧
    updateHeadingColumns (some 5) exRowColBad = some 5 ∧
    (scanTable exTableB).headingColumns ≠ none := by
  refine ⟨?_, ?_, ?_, ?_, ?_⟩
  · exact (colspan_malformed_handling (VNode.element "th" [] []) exRowColBad exTableB "2").1 rfl
  · exact (colspan_malformed_handling (VNode.element "th" [("colspan", "")] [])
      exRowColBad exTableB "2").2.1 rfl
  · exact (colspan_malformed_handling (VNode.element "th" [("colspan", "2")] [])
      exRowColBad exTableB "2").2.2.1 rfl (by decide)
  · exact (colspan_malformed_handling (VNode.element "th" [] [])
      exRowColBad exTableB "2").2.2.2.1 rfl (some 5)
  · exact (colspan_malformed_handling (VNode.element "th" [] [])
      exRowColBad exTableB "2").2.2.2.2

/-! Decomposition lemmas for the spec-level row lists. -/

theorem allSectionRows_append (l1 l2 : List VNode) :
    allSectionRows (l1 ++ l2) = allSectionRows l1 ++ allSectionRows l2 := by
  induction l1 with
  | nil => simp [allSectionRows]
  | cons c rest ih => simp [allSectionRows, ih]

theorem specHeadRows_append_of_no_thead (pre rest : List VNode)
    (h : ∀ c ∈ pre, isTheadB c = false) :
    specHeadRows (pre ++ rest) = specHeadRows rest := by
  induction pre with
  | nil => rfl
  | cons c l ih =>
    have hc : isTheadB c = false := h c (List.mem_cons_self c l)
    simp only [List.cons_append, specHeadRows, hc, Bool.false_eq_true, if_false]
    exact ih (fun d hd => h d (List.mem_cons_of_mem c hd))

theorem specBodyRows_append_of_no_thead (pre rest : List VNode)
    (h : ∀ c ∈ pre, isTheadB c = false) :
    specBodyRows (pre ++ rest) = allSectionRows pre ++ specBodyRows rest := by
  induction pre with
  | nil => simp [allSectionRows]
  | cons c l ih =>
    have hc : isTheadB c = false := h c (List.mem_cons_self c l)
    simp only [List.cons_append, specBodyRows, allSectionRows, hc, Bool.false_eq_true,
      if_false, List.append_eq]
    rw [ih (fun d hd => h d (List.mem_cons_of_mem c hd))]
    simp [List.append_assoc]

/-- C4: when a table has two or more `<thead>` children, only the first
one is the canonical header: `headingRows` counts exactly its rows, the
produced row order places them first, and every later `<thead>`'s rows
appear inside the body sequence, over which the heading-column scan
folds. -/
theorem second_thead_rows_are_body (t : VNode) (pre mid post : List VNode) (th1 th2 : VNode)
    (hsplit : VNode.childrenOf t = pre ++ th1 :: (mid ++ th2 :: post))
    (hpre : ∀ c ∈ pre, isTheadB c = false)
    (h1 : isTheadB th1 = true) (h2 : isTheadB th2 = true) :
    (scanTable t).headingRows = (VNode.childrenOf th1).length ∧
    (scanTable t).rows = VNode.childrenOf th1 ++ specBodyRows (VNode.childrenOf t) ∧
    (∃ a b, specBodyRows (VNode.childrenOf t) = a ++ VNode.childrenOf th2 ++ b) ∧
    (scanTable t).headingColumns =
      (specBodyRows (VNode.childrenOf t)).foldl updateHeadingColumns (some 0) := by
  have hhead : specHeadRows (VNode.childrenOf t) = VNode.childrenOf th1 := by
    rw [hsplit, specHeadRows_append_of_no_thead pre _ hpre]
    simp [specHeadRows, h1]
  refine ⟨?_, ?_, ?_, scanTable_headingColumns_eq t⟩
  · rw [scanTable_headingRows_eq, hhead]
  · rw [scanTable_rows_eq, hhead]
  · rw [hsplit, specBodyRows_append_of_no_thead pre _ hpre]
    have hb : specBodyRows (th1 :: (mid ++ th2 :: post)) =
        allSectionRows (mid ++ th2 :: post) := by
      simp [specBodyRows, h1]
    rw [hb, allSectionRows_append]
    have h2s : sectionRows th2 = VNode.childrenOf th2 := by
      simp [sectionRows, isTheadB_isSectionB th2 h2]
    refine ⟨allSectionRows pre ++ allSectionRows mid, allSectionRows post, ?_⟩
    simp [allSectionRows, h2s, List.append_assoc]

/-- Witness for C4: in a table `<tbody><thead><thead>` the single row of
the first `<thead>` is the only heading row, and the second `<thead>`'s
rows appear inside the body sequence. -/
theorem second_thead_rows_are_body_witness :
    (scanTable exTableTwoThead).headingRows = 1 ∧
    (∃ a b, specBodyRows (VNode.childrenOf exTableTwoThead) =
      a ++ VNode.childrenOf exThead2 ++ b) := by
  have h := second_thead_rows_are_body exTableTwoThead [exTbody] [] [] exThead1 exThead2
    rfl (by intro c hc; rw [List.mem_singleton.mp hc]; rfl) rfl rfl
  exact ⟨by rw [h.1]; rfl, h.2.2.1⟩

/-- C5: when `splitToAllowedParent` reports that placement is impossible,
both handlers abort with no observable mutation: nothing is inserted, the
source node is not consumed, and the conversion data is untouched; both
embeddings are total functions, so no exception propagates. -/
theorem split_failure_no_mutation (t c : VNode) (cv cc : VNode → List MNode) :
    upcastTableStep t true none cv = ⟨none, false, none, none⟩ ∧
    upcastTableCellStep c true none cc = ⟨none, false, none, none⟩ :=
  ⟨rfl, rfl⟩

/-- C6: a table scanned to zero rows yields a destination table holding
exactly one synthesized row containing exactly one synthesized cell, both
heading counts are 0 (so neither attribute is set), and the construction
never consults the row-conversion dispatcher. -/
theorem empty_table_synthesis (t : VNode) (sr : SplitRes) (cv cv' : VNode → List MNode)
    (h : (scanTable t).rows = []) :
    (upcastTableStep t true (some sr) cv).insertedTable =
      some (MNode.node "table" [] [MNode.node "tableRow" [] [createEmptyTableCellNode]]) ∧
    (scanTable t).headingRows = 0 ∧
    (scanTable t).headingColumns = some 0 ∧
    upcastTableStep t true (some sr) cv = upcastTableStep t true (some sr) cv' := by
  have hnil : specHeadRows (VNode.childrenOf t) = [] ∧
      specBodyRows (VNode.childrenOf t) = [] := by
    have hrows := scanTable_rows_eq t
    rw [h] at hrows
    exact List.append_eq_nil.mp hrows.symm
  have hhr : (scanTable t).headingRows = 0 := by
    rw [scanTable_headingRows_eq, hnil.1]
    rfl
  have hhc : (scanTable t).headingColumns = some 0 := by
    rw [scanTable_headingColumns_eq, hnil.2]
    rfl
  have hattrs : tableAttributes (scanTable t) = [] := by
    unfold tableAttributes
    rw [hhc, hhr]
    rfl
  have hbuilt : builtTableNode t cv =
      MNode.node "table" [] [MNode.node "tableRow" [] [createEmptyTableCellNode]] := by
    unfold builtTableNode
    rw [hattrs, h]
    rfl
  refine ⟨?_, hhr, hhc, ?_⟩
  · rw [upcastTableStep_success, hbuilt]
  · rw [upcastTableStep_success, upcastTableStep_success]
    have hbuilt2 : builtTableNode t cv' = builtTableNode t cv := by
      unfold builtTableNode
      rw [h]
      rfl
    rw [hbuilt2]

/-- Witness for C6 at the empty `<table></table>`. -/
theorem empty_table_synthesis_witness :
    (upcastTableStep exTableEmpty true (some exSplit) exNoConvert).insertedTable =
      some (MNode.node "table" [] [MNode.node "tableRow" [] [createEmptyTableCellNode]]) ∧
    (scanTable exTableEmpty).headingRows = 0 := by
  have h := empty_table_synthesis exTableEmpty exSplit exNoConvert exNoConvert rfl
  exact ⟨h.1, h.2.1⟩

/-- C7: every successfully converted cell ends up with at least one
child: when recursive child conversion produced nothing, the cell holds
exactly one placeholder paragraph; when it produced children, the cell
holds exactly those — the placeholder step is gated on zero children, so
it can never add a second placeholder. -/
theorem cell_placeholder (c : VNode) (sr : SplitRes) (cc : VNode → List MNode) (cell : MNode)
    (h : (upcastTableCellStep c true (some sr) cc).insertedCell = some cell) :
    MNode.childrenOf cell ≠ [] ∧
    (cc c = [] → MNode.childrenOf cell = [MNode.node "paragraph" [] []]) ∧
    (cc c ≠ [] → MNode.childrenOf cell = cc c) := by
  have h' : some (builtCellNode c cc) = some cell := by
    rw [upcastTableCellStep_success] at h
    exact h
  have hcell : cell = builtCellNode c cc := (Option.some.inj h').symm
  subst hcell
  by_cases hc : cc c = []
  · have hch : MNode.childrenOf (builtCellNode c cc) = [MNode.node "paragraph" [] []] := by
      unfold builtCellNode
      rw [hc]
      rfl
    exact ⟨by rw [hch]; simp, fun _ => hch, fun hne => absurd hc hne⟩
  · have hch : MNode.childrenOf (builtCellNode c cc) = cc c := by
      unfold builtCellNode
      rw [if_neg (by simp [List.length_eq_zero, hc])]
      rfl
    exact ⟨by rw [hch]; exact hc, fun he => absurd he hc, fun _ => hch⟩

/-- Witness for C7 at an empty `<td></td>` whose conversion produces no
children: the cell holds exactly one paragraph. -/
theorem cell_placeholder_witness :
    MNode.childrenOf (builtCellNode exTd exNoConvert) = [MNode.node "paragraph" [] []] := by
  have h := cell_placeholder exTd exSplit exNoConvert (builtCellNode exTd exNoConvert) rfl
  exact h.2.1 rfl

/-- C8: on every table node actually produced by the handler, the
`headingRows` attribute is present exactly when the scanned heading-row
count is positive (and then holds it), the `headingColumns` attribute is
present exactly when the scanned heading-column count is a positive
number (and then holds it), and neither attribute is ever present with
value 0. -/
theorem heading_attribute_presence (t : VNode) (tn : Bool) (sp : Option SplitRes)
    (cv : VNode → List MNode) (tbl : MNode)
    (h : (upcastTableStep t tn sp cv).insertedTable = some tbl) :
    (MNode.getAttrI tbl "headingRows" =
      (if (scanTable t).headingRows ≠ 0 then some ((scanTable t).headingRows : Int)
       else none)) ∧
    (∃ n : Int, 0 ≤ n ∧ (scanTable t).headingColumns = some n ∧
      MNode.getAttrI tbl "headingColumns" = (if n ≠ 0 then some n else none)) ∧
    MNode.getAttrI tbl "headingRows" ≠ some 0 ∧
    MNode.getAttrI tbl "headingColumns" ≠ some 0 := by
  cases tn with
  | false => simp [upcastTableStep] at h
  | true =>
    cases sp with
    | none => simp [upcastTableStep] at h
    | some sr =>
      have h' : some (builtTableNode t cv) = some tbl := by
        rw [upcastTableStep_success] at h
        exact h
      have htbl : tbl = builtTableNode t cv := (Option.some.inj h').symm
      subst htbl
      obtain ⟨n, hn, hn0⟩ := scanTable_headingColumns_some t
      refine ⟨builtTableNode_getAttr_rows t cv, ⟨n, hn0, hn,
        builtTableNode_getAttr_cols t cv n hn⟩, ?_, ?_⟩
      · rw [builtTableNode_getAttr_rows]
        by_cases hr : (scanTable t).headingRows = 0
        · rw [if_neg (not_not_intro hr)]
          simp
        · rw [if_pos hr]
          intro hcontra
          have hz : ((scanTable t).headingRows : Int) = 0 := Option.some.inj hcontra
          exact hr (by exact_mod_cast hz)
      · rw [builtTableNode_getAttr_cols t cv n hn]
        by_cases hz : n = 0
        · rw [if_neg (not_not_intro hz)]
          simp
        · rw [if_pos hz]
          intro hcontra
          exact hz (Option.some.inj hcontra)

/-- Witness for C8 at a table whose only section is a one-row `<thead>`:
`headingRows` is 1 (present), `headingColumns` is 0 (absent). -/
theorem heading_attribute_presence_witness :
    (MNode.getAttrI (builtTableNode exTableHeadOnly exNoConvert) "headingRows" =
      (if (scanTable exTableHeadOnly).headingRows ≠ 0
       then some ((scanTable exTableHeadOnly).headingRows : Int) else none)) ∧
    (∃ n : Int, 0 ≤ n ∧ (scanTable exTableHeadOnly).headingColumns = some n ∧
      MNode.getAttrI (builtTableNode exTableHeadOnly exNoConvert) "headingColumns" =
        (if n ≠ 0 then some n else none)) ∧
    MNode.getAttrI (builtTableNode exTableHeadOnly exNoConvert) "headingRows" ≠ some 0 ∧
    MNode.getAttrI (builtTableNode exTableHeadOnly exNoConvert) "headingColumns" ≠ some 0 :=
  heading_attribute_presence exTableHeadOnly true (some exSplit) exNoConvert
    (builtTableNode exTableHeadOnly exNoConvert) rfl

/-- C9: on a successful table conversion, the next conversion cursor is
placed inside the split remainder whenever `splitToAllowedParent`
returned a `cursorParent`, and at the end of the produced range
otherwise. -/
theorem table_conversion_cursor (t : VNode) (sr : SplitRes) (cv : VNode → List MNode) :
    (∀ p, sr.cursorParent = some p →
      (upcastTableStep t true (some sr) cv).modelCursor = some (MPos.inParent p)) ∧
    (sr.cursorParent = none →
      ∃ a b, (upcastTableStep t true (some sr) cv).modelRange = some (a, b) ∧
        (upcastTableStep t true (some sr) cv).modelCursor = some b) := by
  constructor
  · intro p hp
    rw [upcastTableStep_success]
    simp [hp]
  · intro hp
    rw [upcastTableStep_success]
    exact ⟨MPos.before (builtTableNode t cv), MPos.after (builtTableNode t cv),
      by simp, by simp [hp]⟩

/-- Witness for C9: with a split continuation at external node 7 the
cursor lands inside it; with none, the cursor is the range end. -/
theorem table_conversion_cursor_witness :
    (upcastTableStep exTableEmpty true (some exSplitPar) exNoConvert).modelCursor =
      some (MPos.inParent 7) ∧
    (∃ a b, (upcastTableStep exTableEmpty true (some exSplit) exNoConvert).modelRange =
        some (a, b) ∧
      (upcastTableStep exTableEmpty true (some exSplit) exNoConvert).modelCursor =
        some b) :=
  ⟨(table_conversion_cursor exTableEmpty exSplitPar exNoConvert).1 7 rfl,
   (table_conversion_cursor exTableEmpty exSplit exNoConvert).2 rfl⟩

/-- C10: on a successful cell conversion, the next conversion cursor is
always the end of the produced range, and it never depends on the split
result's `cursorParent`, unlike the table handler. -/
theorem cell_conversion_cursor (vc : VNode) (sr : SplitRes) (cc : VNode → List MNode) :
    (∃ a b, (upcastTableCellStep vc true (some sr) cc).modelRange = some (a, b) ∧
      (upcastTableCellStep vc true (some sr) cc).modelCursor = some b) ∧
    (∀ q : Option Nat,
      (upcastTableCellStep vc true (some ⟨sr.position, q⟩) cc).modelCursor =
        (upcastTableCellStep vc true (some sr) cc).modelCursor) := by
  constructor
  · exact ⟨MPos.before (builtCellNode vc cc), MPos.after (builtCellNode vc cc), rfl, rfl⟩
  · intro q
    rfl
